import Mathlib

/-!
# Verification of the two-phase fan-in validation and relationship-intelligence engines

Shallow embedding of `src/backend/src/fan-in-validation.ts` and
`src/backend/src/relationship-intelligence.ts`.

Modelling conventions:
* JS numbers (amounts, scores) are embedded as `ℚ`; integer-valued quantities
  produced by `Math.round` are `ℤ`; counts are `ℕ`.
* Timestamps are the epoch-millisecond values that `new Date(ts).getTime()`
  yields, embedded directly as `ℤ` (the spec places malformed timestamps out of
  scope of these modules).
* A JS `Map` built by repeated `set` is embedded as an association list where a
  later binding of the same key shadows earlier ones (`lookupAccount`), or as an
  association list with unique keys looked up by `find?` where the code builds
  the map with unique keys.
* The stable `Array.prototype.sort` is embedded as `List.insertionSort`, which
  is a stable sort, so it produces the identical permutation.
* `Math.round` (round half toward +∞) is `⌊x + 1/2⌋`.
* In-place mutation of the `accounts` array is embedded as a function returning
  the updated list, element for element.
-/

/-- A raw transaction (`RawTransaction` in `types`): sender, receiver, amount,
and the parsed epoch-millisecond timestamp. -/
structure RawTransaction where
  sender_id : String
  receiver_id : String
  amount : ℚ
  timestamp : ℤ
  deriving DecidableEq, Repr

/-- An account node (`AccountNode` in `types`), restricted to the fields these
two modules read or write.  `fan_in_classification` and `corroboration_checks`
are `Option`s because they are absent until the fan-in engine assigns them. -/
structure AccountNode where
  account_id : String
  suspicion_score : ℚ
  is_suspicious : Bool
  explanation : String
  triggered_algorithms : List String
  total_transactions : ℕ
  fan_in_classification : Option String
  corroboration_checks : Option (List String)
  deriving DecidableEq, Repr

/-- Adjacency list `AdjList = Map<string, Map<string, RawTransaction[]>>`:
sender id → (receiver id → transactions between the pair). -/
def AdjList : Type := List (String × List (String × List RawTransaction))

/-- `graph.get(id)`: first binding of `id` (a JS `Map` has unique keys). -/
def lookupAdj (graph : AdjList) (id : String) :
    Option (List (String × List RawTransaction)) :=
  (List.find? (fun p => p.1 = id) graph).map (·.2)

/-- `accountMap.get(id)` for the map built by
`for (const a of accounts) accountMap.set(a.account_id, a)`:
the *last* account in the list with the given id wins. -/
def lookupAccount : List AccountNode → String → Option AccountNode
  | [], _ => none
  | a :: rest, id =>
    match lookupAccount rest id with
    | some b => some b
    | none => if a.account_id = id then some a else none

-- ─── Relationship-intelligence constants (relationship-intelligence.ts) ──────

/-- Minimum number of transactions for a pair to be considered recurring. -/
def MIN_RECURRING_TX_COUNT : ℕ := 3

/-- Minimum span (ms) a pair must cover to qualify as recurring (30 days). -/
def MIN_RECURRING_SPAN_MS : ℤ := 30 * 24 * 60 * 60 * 1000

/-- Maximum total score reduction per account from this module. -/
def MAX_TOTAL_REDUCTION : ℤ := 50

/-- Duration threshold tier 1 (60 days, ms). -/
def DURATION_TIER_1_MS : ℤ := 60 * 24 * 60 * 60 * 1000

/-- Duration threshold tier 2 (120 days, ms). -/
def DURATION_TIER_2_MS : ℤ := 120 * 24 * 60 * 60 * 1000

-- ─── Per-pair statistics ─────────────────────────────────────────────────────

/-- `PairStats`: per directed (sender, receiver) pair, the amounts in
transaction order, the timestamps sorted ascending, and the covered span. -/
structure PairStats where
  sender : String
  receiver : String
  amounts : List ℚ
  timestamps : List ℤ
  spanMs : ℤ
  deriving DecidableEq, Repr

/-- The four per-pair sub-reductions (`ScoreReduction`). -/
structure ScoreReduction where
  recurring : ℤ
  duration : ℤ
  consistency : ℤ
  periodicity : ℤ
  deriving DecidableEq, Repr

/-- Keys of a JS `Map` in insertion order: first occurrence of each key. -/
def insertionKeys {α : Type} [DecidableEq α] (keys : List α) : List α :=
  keys.foldl (fun ks k => if k ∈ ks then ks else ks ++ [k]) []

/-- The directed pair keys occurring in the batch, in `pairMap` insertion
order (JS `Map` iterates keys in first-insertion order). -/
def pairKeys (transactions : List RawTransaction) : List (String × String) :=
  insertionKeys (transactions.map fun tx => (tx.sender_id, tx.receiver_id))

/-- Transactions of one directed pair, in batch order (`push` order). -/
def pairTxs (transactions : List RawTransaction) (s r : String) :
    List RawTransaction :=
  transactions.filter fun tx => tx.sender_id = s ∧ tx.receiver_id = r

/-- `PairStats` for one directed pair: amounts in push order, timestamps sorted
ascending (`timestamps.sort((a, b) => a - b)`), span = last − first. -/
def mkPairStats (transactions : List RawTransaction) (s r : String) :
    PairStats :=
  let txs := pairTxs transactions s r
  let ts := List.insertionSort (fun a b : ℤ => a ≤ b) (txs.map (·.timestamp))
  { sender := s
    receiver := r
    amounts := txs.map (·.amount)
    timestamps := ts
    spanMs := ts.getLastD 0 - ts.headD 0 }

/-- Step 2: a pair qualifies if it has ≥ `MIN_RECURRING_TX_COUNT` transactions
and spans ≥ `MIN_RECURRING_SPAN_MS`. -/
def qualifyingPairs (transactions : List RawTransaction) : List PairStats :=
  ((pairKeys transactions).map fun k => mkPairStats transactions k.1 k.2).filter
    fun p => MIN_RECURRING_TX_COUNT ≤ p.amounts.length ∧
      MIN_RECURRING_SPAN_MS ≤ p.spanMs

-- ─── The four sub-scores ─────────────────────────────────────────────────────

/-- JS `Math.round`: round half toward +∞. -/
def jsRound (x : ℚ) : ℤ := ⌊x + 1 / 2⌋

/-- Sub-score A, recurring pair detection:
`Math.min(25, Math.round(10 + ((count - 3) / 7) * 15))`. -/
def recurringScore (count : ℕ) : ℤ :=
  min 25 (jsRound (10 + (((count : ℚ) - 3) / 7) * 15))

/-- Sub-score B, relationship duration analysis. -/
def durationScore (spanMs : ℤ) : ℤ :=
  if DURATION_TIER_2_MS ≤ spanMs then 20
  else if DURATION_TIER_1_MS ≤ spanMs then 10
  else 0

/-- `⌊31/2 - Real.sqrt q⌋` for `0 ≤ q ≤ 225`, computed over `ℚ`:
the largest `j ∈ [0, 15]` with `j ≤ 31/2 - √q`, i.e. with `q ≤ (31/2 - j)²`
(both sides of the defining inequality are nonnegative for `j ≤ 15`).
The condition is downward closed in `j`, so the fold returns the floor. -/
def floorHalf31SubSqrt (q : ℚ) : ℤ :=
  (List.range 16).foldl
    (fun (acc : ℤ) (j : ℕ) =>
      if q ≤ (31 / 2 - (j : ℚ)) ^ 2 then max acc (j : ℤ) else acc) 0

/-- Sub-score C, amount consistency: with `mean > 0` and population variance
`v`, the source computes `cv = Math.sqrt(v) / mean` and, when `cv < 0.20`,
`Math.round(15 * (1 - cv / 0.20))`.  Over exact arithmetic,
`cv < 1/5 ↔ 25·v < mean²`, and
`round(15·(1 - 5·cv)) = ⌊15 - 75·√v/mean + 1/2⌋ = ⌊31/2 - √(5625·v/mean²)⌋`,
which `floorHalf31SubSqrt` computes without leaving `ℚ`. -/
def consistencyScore (amounts : List ℚ) : ℤ :=
  if 2 ≤ amounts.length then
    let n : ℚ := amounts.length
    let mean := amounts.sum / n
    if 0 < mean then
      let variance := ((amounts.map fun a => (a - mean) ^ 2).sum) / n
      if 25 * variance < mean ^ 2 then
        floorHalf31SubSqrt (5625 * variance / mean ^ 2)
      else 0
    else 0
  else 0

/-- Sub-score D, monthly periodicity: consecutive gaps, their average, the
fraction of gaps within ±25% of the average; if that fraction is ≥ 0.70 the
score is `Math.round(10 + ((matchRatio - 0.70) / 0.30) * 10)`. -/
def periodicityScore (timestamps : List ℤ) : ℤ :=
  if 3 ≤ timestamps.length then
    let gaps : List ℤ := (timestamps.zip timestamps.tail).map fun p => p.2 - p.1
    let avgGap : ℚ := ((gaps.map fun g => (g : ℚ)).sum) / gaps.length
    if 0 < avgGap then
      let lo := avgGap * (1 - 1 / 4)
      let hi := avgGap * (1 + 1 / 4)
      let matchCount := (gaps.filter fun g => lo ≤ (g : ℚ) ∧ (g : ℚ) ≤ hi).length
      let matchRatio : ℚ := (matchCount : ℚ) / gaps.length
      if 7 / 10 ≤ matchRatio then
        jsRound (10 + ((matchRatio - 7 / 10) / (3 / 10)) * 10)
      else 0
    else 0
  else 0

/-- The four sub-scores of one qualifying pair. -/
def pairSubScores (p : PairStats) : ScoreReduction :=
  { recurring := recurringScore p.amounts.length
    duration := durationScore p.spanMs
    consistency := consistencyScore p.amounts
    periodicity := periodicityScore p.timestamps }

-- ─── Per-account aggregation (ensureReduction + componentwise max) ───────────

/-- One `ensureReduction(id)` followed by the four `Math.max` updates: a fresh
entry starts at all zeros and is then maxed with the pair's sub-scores. -/
def updateReduction (acc : List (String × ScoreReduction)) (id : String)
    (sub : ScoreReduction) : List (String × ScoreReduction) :=
  match acc with
  | [] => [(id,
      { recurring := max 0 sub.recurring
        duration := max 0 sub.duration
        consistency := max 0 sub.consistency
        periodicity := max 0 sub.periodicity })]
  | (k, r) :: rest =>
    if k = id then
      (k,
        { recurring := max r.recurring sub.recurring
          duration := max r.duration sub.duration
          consistency := max r.consistency sub.consistency
          periodicity := max r.periodicity sub.periodicity }) :: rest
    else (k, r) :: updateReduction rest id sub

/-- Step 3: the `accountReductions` map, applying each qualifying pair's
sub-scores to both its sender and its receiver. -/
def buildReductions (qps : List PairStats) : List (String × ScoreReduction) :=
  qps.foldl
    (fun acc p =>
      let sub := pairSubScores p
      updateReduction (updateReduction acc p.sender sub) p.receiver sub) []

-- ─── Step 4: application to the accounts ─────────────────────────────────────

/-- The explanation fragment appended by the relationship-intelligence module. -/
def relIntelNote (r : ScoreReduction) (totalReduction : ℤ) (oldScore newScore : ℚ) :
    String :=
  let parts :=
    (if 0 < r.recurring then ["recurring_pair(-" ++ toString r.recurring ++ ")"] else []) ++
    (if 0 < r.duration then ["long_relationship(-" ++ toString r.duration ++ ")"] else []) ++
    (if 0 < r.consistency then ["amount_consistency(-" ++ toString r.consistency ++ ")"] else []) ++
    (if 0 < r.periodicity then ["monthly_periodicity(-" ++ toString r.periodicity ++ ")"] else [])
  let detail := String.intercalate ", " parts
  " | Relationship Intelligence: score reduced by " ++ toString totalReduction ++
    " (" ++ toString oldScore ++ "→" ++ toString newScore ++ ") [" ++ detail ++ "]"

/-- The per-account body of the step-4 loop. -/
def applyReductionAccount (cycleMembers : List String)
    (reds : List (String × ScoreReduction)) (a : AccountNode) : AccountNode :=
  if a.account_id ∈ cycleMembers then a
  else if a.suspicion_score ≤ 0 then a
  else
    match List.find? (fun p => p.1 = a.account_id) reds with
    | none => a
    | some (_, r) =>
      let totalReduction : ℤ :=
        min MAX_TOTAL_REDUCTION (r.recurring + r.duration + r.consistency + r.periodicity)
      if totalReduction ≤ 0 then a
      else
        let oldScore := a.suspicion_score
        let newScore : ℚ := max 0 (oldScore - (totalReduction : ℚ))
        { a with
          suspicion_score := newScore
          triggered_algorithms := a.triggered_algorithms ++ ["relationship_intelligence"]
          explanation := a.explanation ++ relIntelNote r totalReduction oldScore newScore
          is_suspicious := decide (0 < newScore) }

/-- `adjustScoresUsingRelationshipIntelligence`: the full relationship
intelligence pass, returning the mutated accounts list. -/
def adjustScoresUsingRelationshipIntelligence (accounts : List AccountNode)
    (transactions : List RawTransaction) (cycleMembers : List String) :
    List AccountNode :=
  accounts.map
    (applyReductionAccount cycleMembers (buildReductions (qualifyingPairs transactions)))

-- ════════════════ Fan-in validation (fan-in-validation.ts) ═══════════════════

/-- Time window (ms) within which fan-in senders are counted (Phase 1). -/
def FAN_IN_WINDOW_MS : ℤ := 72 * 60 * 60 * 1000

/-- Minimum unique senders in the window to qualify as aggregation candidate. -/
def MIN_UNIQUE_SENDERS : ℕ := 3

/-- Amount preservation tolerance for shell-chain hop comparison (± 20%). -/
def AMOUNT_TOLERANCE : ℚ := 20 / 100

/-- Rapid outflow: maximum time window (ms) for the outward flow. -/
def RAPID_OUTFLOW_WINDOW_MS : ℤ := 24 * 60 * 60 * 1000

/-- Rapid outflow: minimum fraction of the received amount to be forwarded. -/
def RAPID_OUTFLOW_RATIO : ℚ := 50 / 100

/-- Maximum total transactions of a low-activity shell intermediary. -/
def LOW_ACTIVITY_TX_THRESHOLD : ℕ := 3

/-- An aggregation candidate (`AggregationCandidate`). -/
structure AggregationCandidate where
  accountId : String
  senders : Finset String
  totalReceived : ℚ
  windowStart : ℤ
  windowEnd : ℤ
  deriving DecidableEq

-- ─── Phase 1: identify aggregation candidates ────────────────────────────────

/-- Timestamp of `sorted[i]` (only read at in-bounds indices). -/
def tsAt (sorted : List RawTransaction) (i : ℕ) : ℤ :=
  (sorted[i]?.map (·.timestamp)).getD 0

/-- The transactions `sorted[left..right]` of the current window. -/
def windowSlice (sorted : List RawTransaction) (left right : ℕ) :
    List RawTransaction :=
  (sorted.drop left).take (right + 1 - left)

/-- The unique senders of the current window (`sendersInWindow`). -/
def sendersInWindow (sorted : List RawTransaction) (left right : ℕ) :
    Finset String :=
  ((windowSlice sorted left right).map (·.sender_id)).toFinset

/-- The inner `while` loop of Phase 1: slide the left pointer while
`left < right` and the window exceeds `FAN_IN_WINDOW_MS`.  The fuel is
`right - left`, so running out of fuel is exactly reaching `left = right`. -/
def slideLeft (sorted : List RawTransaction) (rightTime : ℤ) :
    ℕ → ℕ → ℕ
  | 0, left => left
  | fuel + 1, left =>
    if FAN_IN_WINDOW_MS < rightTime - tsAt sorted left then
      slideLeft sorted rightTime fuel (left + 1)
    else left

/-- One iteration of the outer `for right` loop of Phase 1: slide the left
pointer, collect the unique senders of the current window, and upgrade the
best qualifying window when this one has strictly more unique senders
(`size >= MIN_UNIQUE_SENDERS && (!bestSenders || size > bestSenders.size)`).
Returns the new left pointer and the new best window. -/
def phase1Step (sorted : List RawTransaction) (right left : ℕ)
    (best : Option (Finset String × ℕ × ℕ)) :
    ℕ × Option (Finset String × ℕ × ℕ) :=
  let rightTime := tsAt sorted right
  let left' := slideLeft sorted rightTime (right - left) left
  let s := sendersInWindow sorted left' right
  let keep : Bool :=
    match best with
    | none => true
    | some (s0, _, _) => decide (s0.card < s.card)
  let best' :=
    if decide (MIN_UNIQUE_SENDERS ≤ s.card) && keep then
      some (s, left', right)
    else best
  (left', best')

/-- The outer `for right` loop of Phase 1, carrying the persistent left
pointer and the best qualifying window found so far
(`bestSenders`, `bestLeft`, `bestRight`).  Fuel counts the remaining
values of `right`. -/
def phase1Go (sorted : List RawTransaction) :
    ℕ → ℕ → ℕ → Option (Finset String × ℕ × ℕ) →
    Option (Finset String × ℕ × ℕ)
  | 0, _, _, best => best
  | fuel + 1, right, left, best =>
    if right < sorted.length then
      phase1Go sorted fuel (right + 1) (phase1Step sorted right left best).1
        (phase1Step sorted right left best).2
    else best

/-- The best qualifying window of one receiver's sorted transactions. -/
def bestWindow (sorted : List RawTransaction) :
    Option (Finset String × ℕ × ℕ) :=
  phase1Go sorted sorted.length 0 0 none

/-- This receiver's incoming transactions, in batch order (`byReceiver`). -/
def incomingTxs (transactions : List RawTransaction) (receiver : String) :
    List RawTransaction :=
  transactions.filter fun tx => tx.receiver_id = receiver

/-- The stable chronological sort
`txs.slice().sort((a, b) => ta - tb)`. -/
def sortByTimestamp (txs : List RawTransaction) : List RawTransaction :=
  List.insertionSort (fun a b : RawTransaction => a.timestamp ≤ b.timestamp) txs

/-- The candidate produced for one receiver, if any: the transactions are
sorted chronologically (stable, like `Array.prototype.sort`) and the best
window, when one exists, is turned into an `AggregationCandidate`.
`totalReceived` sums the amounts of the window transactions whose sender is
in the best sender set. -/
def candidateFor (transactions : List RawTransaction) (receiver : String) :
    Option AggregationCandidate :=
  let sorted := sortByTimestamp (incomingTxs transactions receiver)
  match bestWindow sorted with
  | none => none
  | some (s, bestLeft, bestRight) =>
    some
      { accountId := receiver
        senders := s
        totalReceived :=
          (((windowSlice sorted bestLeft bestRight).filter
              fun tx => tx.sender_id ∈ s).map (·.amount)).sum
        windowStart := tsAt sorted bestLeft
        windowEnd := tsAt sorted bestRight }

/-- Phase 1 (`identifyAggregationCandidates`): one candidate at most per
receiver, receivers in `byReceiver` insertion order. -/
def identifyAggregationCandidates (transactions : List RawTransaction) :
    List AggregationCandidate :=
  (insertionKeys (transactions.map (·.receiver_id))).filterMap
    (candidateFor transactions)

-- ─── Phase 2: the four corroboration checks ──────────────────────────────────

/-- Corroboration check 1 (`checkShellChainInvolvement`): some outgoing
neighbor is a low-activity account, receives at least
`totalReceived * (1 - AMOUNT_TOLERANCE) * 0.5`, and forwards onward to a hop
other than the candidate.  `accountMap` is the account lookup. -/
def checkShellChainInvolvement (candidateId : String) (totalReceived : ℚ)
    (graph : AdjList) (accountMap : String → Option AccountNode) : Bool :=
  match lookupAdj graph candidateId with
  | none => false
  | some outNeighbors =>
    outNeighbors.any fun p =>
      match accountMap p.1 with
      | none => false
      | some neighbor =>
        if LOW_ACTIVITY_TX_THRESHOLD < neighbor.total_transactions then false
        else
          let outAmount := (p.2.map (·.amount)).sum
          let lowerBound := totalReceived * (1 - AMOUNT_TOLERANCE)
          if lowerBound * (1 / 2) ≤ outAmount then
            match lookupAdj graph p.1 with
            | none => false
            | some hopNeighbors => hopNeighbors.any fun q => q.1 ≠ candidateId
          else false

/-- Corroboration check 2 (`checkCycleParticipation`): the candidate is a
cycle member, or routes funds into a cycle member. -/
def checkCycleParticipation (candidateId : String) (cycleNodes : List String)
    (graph : AdjList) : Bool :=
  if candidateId ∈ cycleNodes then true
  else
    match lookupAdj graph candidateId with
    | none => false
    | some outNeighbors => outNeighbors.any fun p => p.1 ∈ cycleNodes

/-- Corroboration check 3 (`checkRapidLayeredOutflow`): outgoing transactions
within `[windowStart, windowEnd + RAPID_OUTFLOW_WINDOW_MS]` must exist and
their total must reach `totalReceived * RAPID_OUTFLOW_RATIO`.  The source
sorts the outgoing transactions before summing; the sum is over all of them
either way, and the stable sort is kept here for fidelity. -/
def checkRapidLayeredOutflow (candidateId : String)
    (candidate : AggregationCandidate)
    (transactions : List RawTransaction) : Bool :=
  let outgoingAfterAggregation := transactions.filter fun tx =>
    tx.sender_id = candidateId ∧
      candidate.windowStart ≤ tx.timestamp ∧
      tx.timestamp ≤ candidate.windowEnd + RAPID_OUTFLOW_WINDOW_MS
  if outgoingAfterAggregation.length = 0 then false
  else
    let sorted := sortByTimestamp outgoingAfterAggregation
    let totalOutflow := (sorted.map (·.amount)).sum
    decide (candidate.totalReceived * RAPID_OUTFLOW_RATIO ≤ totalOutflow)

/-- Corroboration check 4 (`checkRoleConflict`): the candidate is also a shell
intermediary, a fan-out source, or a cycle member. -/
def checkRoleConflict (candidateId : String) (shellNodes : List String)
    (fanOutNodes : List String) (cycleNodes : List String) : Bool :=
  if candidateId ∈ shellNodes then true
  else if candidateId ∈ fanOutNodes then true
  else if candidateId ∈ cycleNodes then true
  else false

/-- The ordered list of triggered check names for one candidate. -/
def candChecks (transactions : List RawTransaction) (graph : AdjList)
    (accountMap : String → Option AccountNode) (cycleNodes : List String)
    (shellNodes : List String) (fanOutNodes : List String)
    (candidate : AggregationCandidate) : List String :=
  (if checkShellChainInvolvement candidate.accountId candidate.totalReceived
      graph accountMap then ["shell_chain_involvement"] else []) ++
  (if checkCycleParticipation candidate.accountId cycleNodes graph
    then ["cycle_ring_participation"] else []) ++
  (if checkRapidLayeredOutflow candidate.accountId candidate transactions
    then ["rapid_layered_outflow"] else []) ++
  (if checkRoleConflict candidate.accountId shellNodes fanOutNodes cycleNodes
    then ["role_conflict"] else [])

/-- The classification block at the end of the Phase 2 loop: set
`corroboration_checks` and `fan_in_classification`, record the algorithm name
once, and append the explanation fragment. -/
def fanInUpdateAccount (a : AccountNode) (triggeredChecks : List String) :
    AccountNode :=
  let classification :=
    if 0 < triggeredChecks.length then "confirmed_money_laundering"
    else "aggregation_candidate"
  let algs :=
    if "Two-Phase Fan-In Validation" ∈ a.triggered_algorithms then
      a.triggered_algorithms
    else a.triggered_algorithms ++ ["Two-Phase Fan-In Validation"]
  let classLabel :=
    if classification = "confirmed_money_laundering" then
      "CONFIRMED MONEY LAUNDERING"
    else "AGGREGATION CANDIDATE (unconfirmed)"
  let checksStr :=
    if 0 < triggeredChecks.length then
      "Corroboration: " ++ String.intercalate ", " triggeredChecks
    else "No corroboration evidence found"
  { a with
    corroboration_checks := some triggeredChecks
    fan_in_classification := some classification
    triggered_algorithms := algs
    explanation :=
      a.explanation ++ ". Fan-In Validation: " ++ classLabel ++ ". " ++ checksStr }

/-- The Phase 2 loop over the candidates, viewed per account position: the
account object mutated for a candidate is `accountMap.get(candidate.accountId)`,
i.e. the *last* occurrence of that id in the accounts array, and each candidate
id occurs at most once, so a position is updated exactly when it is the last
occurrence of its id and its id is some candidate's.  The corroboration checks
read only `total_transactions` of looked-up accounts, a field the loop never
writes, so the checks of every candidate are those computed on the input
accounts (`f`). -/
def applyFanInUpdates (f : AggregationCandidate → List String)
    (cands : List AggregationCandidate) :
    List AccountNode → List AccountNode
  | [] => []
  | a :: rest =>
    (if a.account_id ∈ rest.map (·.account_id) then a
     else
       match cands.find? (fun c => c.accountId = a.account_id) with
       | some c => fanInUpdateAccount a (f c)
       | none => a) :: applyFanInUpdates f cands rest

/-- `validateFanInTwoPhase`: the full two-phase fan-in validation pass.
`fanOutMap` only contributes its key set (`fanOutNodes`). -/
def validateFanInTwoPhase (accounts : List AccountNode)
    (transactions : List RawTransaction) (graph : AdjList)
    (cycles : List (List String)) (shellChains : List (List String))
    (fanOutMap : List (String × List String)) : List AccountNode :=
  let cycleNodes := cycles.flatten
  let shellNodes := shellChains.flatten
  let fanOutNodes := fanOutMap.map (·.1)
  let candidates := identifyAggregationCandidates transactions
  applyFanInUpdates
    (candChecks transactions graph (lookupAccount accounts) cycleNodes
      shellNodes fanOutNodes)
    candidates accounts

-- ════════════════ Derived definitions used by the verification ═══════════════

/-- All components of every aggregated reduction record are nonnegative. -/
def RedNonneg (r : ScoreReduction) : Prop :=
  0 ≤ r.recurring ∧ 0 ≤ r.duration ∧ 0 ≤ r.consistency ∧ 0 ≤ r.periodicity

/-- The update applied at one account position of the Phase 2 loop, as a
function of the ids occurring later in the array. -/
def fanInStep (f : AggregationCandidate → List String)
    (cands : List AggregationCandidate) (restIds : List String)
    (a : AccountNode) : AccountNode :=
  if a.account_id ∈ restIds then a
  else
    match cands.find? (fun c => c.accountId = a.account_id) with
    | some c => fanInUpdateAccount a (f c)
    | none => a

/-- Every account field except the append-only `explanation`. -/
def fanInCore (a : AccountNode) :
    String × ℚ × Bool × List String × ℕ × Option String × Option (List String) :=
  (a.account_id, a.suspicion_score, a.is_suspicious, a.triggered_algorithms,
    a.total_transactions, a.fan_in_classification, a.corroboration_checks)

/-- The unique senders of `txs` inside one concrete 72-hour window
`[t0, t0 + FAN_IN_WINDOW_MS]`. -/
def windowSenders (txs : List RawTransaction) (t0 : ℤ) : Finset String :=
  ((txs.filter fun tx =>
      t0 ≤ tx.timestamp ∧ tx.timestamp ≤ t0 + FAN_IN_WINDOW_MS).map
    (·.sender_id)).toFinset

/-- Some 72-hour window of `txs` contains at least `MIN_UNIQUE_SENDERS`
unique sender ids. -/
def hasFanInWindow (txs : List RawTransaction) : Prop :=
  ∃ t0 : ℤ, MIN_UNIQUE_SENDERS ≤ (windowSenders txs t0).card

instance : IsTotal RawTransaction (fun a b => a.timestamp ≤ b.timestamp) :=
  ⟨fun a b => le_total a.timestamp b.timestamp⟩

instance : IsTrans RawTransaction (fun a b => a.timestamp ≤ b.timestamp) :=
  ⟨fun _ _ _ hab hbc => le_trans hab hbc⟩

/-- What `phase1Go` guarantees of any best window it reports: the sender set
is the window's, the indices are an in-bounds window, and the window fits in
the 72-hour bound. -/
def GoodWindow (sorted : List RawTransaction) (s : Finset String)
    (l r : ℕ) : Prop :=
  MIN_UNIQUE_SENDERS ≤ s.card ∧ s = sendersInWindow sorted l r ∧ l ≤ r ∧
    r < sorted.length ∧ tsAt sorted r - tsAt sorted l ≤ FAN_IN_WINDOW_MS

/-- A transaction literal. -/
def exTx (s r : String) (amt : ℚ) (ts : ℤ) : RawTransaction :=
  { sender_id := s, receiver_id := r, amount := amt, timestamp := ts }

/-- A fresh upstream account with the given id and score. -/
def exAccount (id : String) (score : ℚ) : AccountNode :=
  { account_id := id
    suspicion_score := score
    is_suspicious := decide (0 < score)
    explanation := ""
    triggered_algorithms := []
    total_transactions := 5
    fan_in_classification := none
    corroboration_checks := none }

/-- Three unique senders pay `R` within 72 hours. -/
def fanInTxsR : List RawTransaction :=
  [exTx "s1" "R" 100 0, exTx "s2" "R" 100 3600000, exTx "s3" "R" 100 7200000]

/-- `X` pays `Y` 1000 every 30 days, four times (a qualifying pair). -/
def relTxsXY : List RawTransaction :=
  [exTx "X" "Y" 1000 0, exTx "X" "Y" 1000 2592000000,
    exTx "X" "Y" 1000 5184000000, exTx "X" "Y" 1000 7776000000]

/-- The candidate that `fanInTxsR` produces for receiver `R`. -/
def fanInCandR : AggregationCandidate :=
  { accountId := "R"
    senders := {"s1", "s2", "s3"}
    totalReceived := 300
    windowStart := 0
    windowEnd := 7200000 }

-- ════════════════ Lemmas: relationship-intelligence engine ═══════════════════

theorem updateReduction_nonneg {acc : List (String × ScoreReduction)}
    {id : String} {sub : ScoreReduction}
    (h : ∀ e ∈ acc, RedNonneg e.2) :
    ∀ e ∈ updateReduction acc id sub, RedNonneg e.2 := by
  induction acc with
  | nil =>
    intro e he
    simp only [updateReduction, List.mem_singleton] at he
    subst he
    exact ⟨le_max_left _ _, le_max_left _ _, le_max_left _ _, le_max_left _ _⟩
  | cons hd tl ih =>
    obtain ⟨k, r⟩ := hd
    intro e he
    simp only [updateReduction] at he
    split at he
    · rcases List.mem_cons.mp he with h1 | h1
      · subst h1
        have hr := h (k, r) (List.mem_cons_self _ _)
        exact ⟨le_trans hr.1 (le_max_left _ _), le_trans hr.2.1 (le_max_left _ _),
          le_trans hr.2.2.1 (le_max_left _ _), le_trans hr.2.2.2 (le_max_left _ _)⟩
      · exact h e (List.mem_cons_of_mem _ h1)
    · rcases List.mem_cons.mp he with h1 | h1
      · subst h1; exact h _ (List.mem_cons_self _ _)
      · exact ih (fun e' he' => h e' (List.mem_cons_of_mem _ he')) e h1

theorem buildReductions_nonneg (qps : List PairStats) :
    ∀ e ∈ buildReductions qps, RedNonneg e.2 := by
  suffices h : ∀ (qps : List PairStats) (acc : List (String × ScoreReduction)),
      (∀ e ∈ acc, RedNonneg e.2) →
      ∀ e ∈ qps.foldl (fun acc p =>
        let sub := pairSubScores p
        updateReduction (updateReduction acc p.sender sub) p.receiver sub) acc,
      RedNonneg e.2 by
    exact h qps [] (by simp)
  intro qps
  induction qps with
  | nil => intro acc h e he; exact h e he
  | cons p tl ih =>
    intro acc h e he
    exact ih _ (updateReduction_nonneg (updateReduction_nonneg h)) e he

/-- C4 and C5 share this case analysis of one step-4 loop body. -/
theorem applyReductionAccount_score (cycleMembers : List String)
    (reds : List (String × ScoreReduction)) (a : AccountNode) :
    applyReductionAccount cycleMembers reds a = a ∨
      ∃ t : ℤ, 0 < t ∧ t ≤ MAX_TOTAL_REDUCTION ∧
        (applyReductionAccount cycleMembers reds a).suspicion_score =
          max 0 (a.suspicion_score - (t : ℚ)) := by
  unfold applyReductionAccount
  split
  · exact Or.inl rfl
  split
  · exact Or.inl rfl
  split
  · exact Or.inl rfl
  dsimp only
  split
  · exact Or.inl rfl
  next ht => exact Or.inr ⟨_, lt_of_not_le ht, min_le_left _ _, rfl⟩

/-- C4: for every account with nonnegative input `suspicion_score`, the
relationship-intelligence output score is at most the input score and is
never negative. -/
theorem relIntel_score_monotone_nonneg (accounts : List AccountNode)
    (transactions : List RawTransaction) (cycleMembers : List String)
    (i : ℕ) (a0 : AccountNode) (h : accounts[i]? = some a0)
    (hnn : 0 ≤ a0.suspicion_score) :
    ∃ a1, (adjustScoresUsingRelationshipIntelligence accounts transactions
        cycleMembers)[i]? = some a1 ∧
      a1.suspicion_score ≤ a0.suspicion_score ∧ 0 ≤ a1.suspicion_score := by
  unfold adjustScoresUsingRelationshipIntelligence
  rw [List.getElem?_map, h]
  refine ⟨_, rfl, ?_⟩
  rcases applyReductionAccount_score
      cycleMembers (buildReductions (qualifyingPairs transactions)) a0 with
    heq | ⟨t, ht0, _, hsc⟩
  · rw [heq]; exact ⟨le_rfl, hnn⟩
  · rw [hsc]
    constructor
    · refine max_le hnn ?_
      have : (0 : ℚ) < (t : ℚ) := by exact_mod_cast ht0
      linarith
    · exact le_max_left _ _

/-- C5: the total reduction one relationship-intelligence run applies to an
account's `suspicion_score` is at most `MAX_TOTAL_REDUCTION = 50`, even when
the four per-account category maxima sum to more. -/
theorem relIntel_total_reduction_le_50 (accounts : List AccountNode)
    (transactions : List RawTransaction) (cycleMembers : List String)
    (i : ℕ) (a0 : AccountNode) (h : accounts[i]? = some a0) :
    ∃ a1, (adjustScoresUsingRelationshipIntelligence accounts transactions
        cycleMembers)[i]? = some a1 ∧
      a0.suspicion_score - a1.suspicion_score ≤ 50 := by
  unfold adjustScoresUsingRelationshipIntelligence
  rw [List.getElem?_map, h]
  refine ⟨_, rfl, ?_⟩
  rcases applyReductionAccount_score
      cycleMembers (buildReductions (qualifyingPairs transactions)) a0 with
    heq | ⟨t, _, htm, hsc⟩
  · rw [heq]; norm_num
  · rw [hsc]
    have h1 : a0.suspicion_score - (t : ℚ) ≤ max 0 (a0.suspicion_score - (t : ℚ)) :=
      le_max_right _ _
    have h2 : (t : ℚ) ≤ 50 := by
      have : t ≤ (50 : ℤ) := htm
      exact_mod_cast this
    linarith

/-- C6: an account whose id is in `cycleMembers` is returned unchanged by the
relationship-intelligence engine, regardless of its pair statistics. -/
theorem relIntel_cycle_member_unchanged (accounts : List AccountNode)
    (transactions : List RawTransaction) (cycleMembers : List String)
    (i : ℕ) (a0 : AccountNode) (h : accounts[i]? = some a0)
    (hc : a0.account_id ∈ cycleMembers) :
    (adjustScoresUsingRelationshipIntelligence accounts transactions
      cycleMembers)[i]? = some a0 := by
  unfold adjustScoresUsingRelationshipIntelligence
  rw [List.getElem?_map, h]
  simp [applyReductionAccount, hc]

-- ─── Rounding lemmas for the recurring-pair sub-score ────────────────────────

theorem jsRound_abs (x : ℚ) : |(jsRound x : ℚ) - x| ≤ 1 / 2 := by
  unfold jsRound
  have h1 := Int.floor_le (x + 1 / 2)
  have h2 := Int.lt_floor_add_one (x + 1 / 2)
  rw [abs_le]
  constructor <;> push_cast at h1 h2 ⊢ <;> linarith

theorem abs_min_sub_min (c a b : ℚ) : |min c a - min c b| ≤ |a - b| := by
  have h1 := le_abs_self (a - b)
  have h2 := neg_abs_le (a - b)
  rcases min_cases c a with ⟨e1, i1⟩ | ⟨e1, i1⟩ <;>
    rcases min_cases c b with ⟨e2, i2⟩ | ⟨e2, i2⟩ <;>
      rw [e1, e2, abs_le] <;> constructor <;> linarith

theorem recurringScore_ge_10 {n : ℕ} (h : 3 ≤ n) : 10 ≤ recurringScore n := by
  have h3 : (3 : ℚ) ≤ (n : ℚ) := by exact_mod_cast h
  refine le_min (by norm_num) ?_
  unfold jsRound
  rw [Int.le_floor]
  have hx : (0 : ℚ) ≤ (((n : ℚ) - 3) / 7) * 15 := by
    apply mul_nonneg (div_nonneg (by linarith) (by norm_num)) (by norm_num)
  push_cast
  linarith

/-- C7 (amended): the recurring-pair sub-score is the nearest integer (JS
half-up rounding) to the line `10 + ((count − 3)/7) × 15`, clamped at 25; it
is always within 1/2 of the clamped line value, equals 10 at 3 transactions
and 25 at 10 or more, and always lies in `[10, 25]`. -/
theorem recurringScore_rounded_line (n : ℕ) (h : 3 ≤ n) :
    10 ≤ recurringScore n ∧ recurringScore n ≤ 25 ∧
    |(recurringScore n : ℚ) - min 25 (10 + (((n : ℚ) - 3) / 7) * 15)| ≤ 1 / 2 ∧
    (n = 3 → recurringScore n = 10) ∧ (10 ≤ n → recurringScore n = 25) := by
  refine ⟨recurringScore_ge_10 h, min_le_left _ _, ?_, ?_, ?_⟩
  · have habs := jsRound_abs (10 + (((n : ℚ) - 3) / 7) * 15)
    have hcast : (recurringScore n : ℚ) =
        min 25 ((jsRound (10 + (((n : ℚ) - 3) / 7) * 15) : ℤ) : ℚ) := by
      unfold recurringScore
      push_cast
      norm_num
    rw [hcast]
    exact le_trans (abs_min_sub_min _ _ _) habs
  · rintro rfl
    unfold recurringScore jsRound
    norm_num
  · intro h10
    have h10q : (10 : ℚ) ≤ (n : ℚ) := by exact_mod_cast h10
    have h25 : (25 : ℤ) ≤ jsRound (10 + (((n : ℚ) - 3) / 7) * 15) := by
      unfold jsRound
      rw [Int.le_floor]
      have : (1 : ℚ) ≤ ((n : ℚ) - 3) / 7 := by linarith
      push_cast
      nlinarith
    exact min_eq_left h25

/-- C7 (counterexample): at 4 transactions the sub-score is 12, which is not
the exact line value `10 + ((4 − 3)/7) × 15 = 85/7`. -/
theorem recurringScore_not_on_line :
    (recurringScore 4 : ℚ) ≠ min 25 (10 + ((((4 : ℕ) : ℚ) - 3) / 7) * 15) := by
  have h1 : recurringScore 4 = 12 := by unfold recurringScore jsRound; norm_num
  rw [h1, min_eq_right (by norm_num : (10 + ((((4 : ℕ) : ℚ) - 3) / 7) * 15) ≤ 25)]
  norm_num

/-- Witness for `recurringScore_rounded_line` at `n = 4`. -/
theorem recurringScore_rounded_line_witness :
    3 ≤ 4 ∧
    (10 ≤ recurringScore 4 ∧ recurringScore 4 ≤ 25 ∧
      |(recurringScore 4 : ℚ) - min 25 (10 + ((((4 : ℕ) : ℚ) - 3) / 7) * 15)| ≤ 1 / 2 ∧
      ((4 : ℕ) = 3 → recurringScore 4 = 10) ∧ (10 ≤ (4 : ℕ) → recurringScore 4 = 25)) :=
  ⟨by decide, recurringScore_rounded_line 4 (by decide)⟩

-- ─── Lemmas: the accountReductions association list ──────────────────────────

theorem find?_updateReduction_self (acc : List (String × ScoreReduction))
    (id : String) (sub : ScoreReduction) :
    ∃ r, List.find? (fun p => p.1 = id) (updateReduction acc id sub) =
      some (id, r) ∧ sub.recurring ≤ r.recurring := by
  induction acc with
  | nil =>
    refine ⟨⟨max 0 sub.recurring, max 0 sub.duration, max 0 sub.consistency,
      max 0 sub.periodicity⟩, ?_, le_max_right _ _⟩
    simp [updateReduction, List.find?]
  | cons hd tl ih =>
    obtain ⟨k, r0⟩ := hd
    by_cases hk : k = id
    · subst hk
      refine ⟨⟨max r0.recurring sub.recurring, max r0.duration sub.duration,
        max r0.consistency sub.consistency, max r0.periodicity sub.periodicity⟩,
        ?_, le_max_right _ _⟩
      simp [updateReduction, List.find?]
    · obtain ⟨r, hr, hle⟩ := ih
      refine ⟨r, ?_, hle⟩
      have hred : updateReduction ((k, r0) :: tl) id sub =
          (k, r0) :: updateReduction tl id sub := by
        simp [updateReduction, hk]
      rw [hred, List.find?_cons_of_neg _ (by simpa using hk)]
      exact hr

theorem find?_updateReduction_mono {acc : List (String × ScoreReduction)}
    {id k : String} {r : ScoreReduction} (id' : String) (sub : ScoreReduction)
    (h : List.find? (fun p => p.1 = id) acc = some (k, r)) :
    ∃ k' r', List.find? (fun p => p.1 = id) (updateReduction acc id' sub) =
      some (k', r') ∧ r.recurring ≤ r'.recurring := by
  induction acc with
  | nil => simp [List.find?] at h
  | cons hd tl ih =>
    obtain ⟨k0, r0⟩ := hd
    by_cases hk0 : k0 = id'
    · subst hk0
      have hred : updateReduction ((k0, r0) :: tl) k0 sub =
          (k0,
            { recurring := max r0.recurring sub.recurring
              duration := max r0.duration sub.duration
              consistency := max r0.consistency sub.consistency
              periodicity := max r0.periodicity sub.periodicity }) :: tl := by
        simp [updateReduction]
      by_cases hm : k0 = id
      · rw [List.find?_cons_of_pos _ (by simp [hm])] at h
        injection h with h1
        injection h1 with hk1 hr1
        subst hk1
        subst hr1
        rw [hred, List.find?_cons_of_pos _ (by simp [hm])]
        exact ⟨_, _, rfl, le_max_left _ _⟩
      · rw [List.find?_cons_of_neg _ (by simpa using hm)] at h
        rw [hred, List.find?_cons_of_neg _ (by simpa using hm)]
        exact ⟨k, r, h, le_rfl⟩
    · have hred : updateReduction ((k0, r0) :: tl) id' sub =
          (k0, r0) :: updateReduction tl id' sub := by
        simp [updateReduction, hk0]
      by_cases hm : k0 = id
      · rw [List.find?_cons_of_pos _ (by simp [hm])] at h
        injection h with h1
        injection h1 with hk1 hr1
        subst hk1
        subst hr1
        rw [hred, List.find?_cons_of_pos _ (by simp [hm])]
        exact ⟨_, _, rfl, le_rfl⟩
      · rw [List.find?_cons_of_neg _ (by simpa using hm)] at h
        obtain ⟨k', r', hf, hle⟩ := ih h
        rw [hred, List.find?_cons_of_neg _ (by simpa using hm)]
        exact ⟨k', r', hf, hle⟩

theorem find?_buildReductions_recurring (qps : List PairStats) (id : String)
    (hp : ∃ p ∈ qps, (p.sender = id ∨ p.receiver = id) ∧
      10 ≤ (pairSubScores p).recurring) :
    ∃ k r, List.find? (fun p => p.1 = id) (buildReductions qps) = some (k, r) ∧
      10 ≤ r.recurring := by
  suffices hgen : ∀ (qps : List PairStats) (acc : List (String × ScoreReduction)),
      ((∃ k r, List.find? (fun p => p.1 = id) acc = some (k, r) ∧
          10 ≤ r.recurring) ∨
        ∃ p ∈ qps, (p.sender = id ∨ p.receiver = id) ∧
          10 ≤ (pairSubScores p).recurring) →
      ∃ k r, List.find? (fun p => p.1 = id)
        (qps.foldl (fun acc p =>
          let sub := pairSubScores p
          updateReduction (updateReduction acc p.sender sub) p.receiver sub) acc) =
        some (k, r) ∧ 10 ≤ r.recurring by
    exact hgen qps [] (Or.inr hp)
  intro qps
  induction qps with
  | nil =>
    intro acc hstart
    rcases hstart with hP | hrem
    · exact hP
    · simp at hrem
  | cons p tl ih =>
    intro acc hstart
    simp only [List.foldl_cons]
    apply ih
    rcases hstart with ⟨k, r, hf, hr⟩ | ⟨q, hq, hid, hrec⟩
    · left
      obtain ⟨k1, r1, hf1, hle1⟩ :=
        find?_updateReduction_mono p.sender (pairSubScores p) hf
      obtain ⟨k2, r2, hf2, hle2⟩ :=
        find?_updateReduction_mono p.receiver (pairSubScores p) hf1
      exact ⟨k2, r2, hf2, le_trans hr (le_trans hle1 hle2)⟩
    · rcases List.mem_cons.mp hq with rfl | hq'
      · left
        show ∃ k r, List.find? (fun p => p.1 = id)
          (updateReduction (updateReduction acc q.sender (pairSubScores q))
            q.receiver (pairSubScores q)) = some (k, r) ∧ 10 ≤ r.recurring
        rcases hid with hs | hr'
        · rw [hs]
          obtain ⟨r1, hf1, hle1⟩ :=
            find?_updateReduction_self acc id (pairSubScores q)
          obtain ⟨k2, r2, hf2, hle2⟩ :=
            find?_updateReduction_mono q.receiver (pairSubScores q) hf1
          exact ⟨k2, r2, hf2, le_trans hrec (le_trans hle1 hle2)⟩
        · rw [hr']
          obtain ⟨r2, hf2, hle2⟩ :=
            find?_updateReduction_self
              (updateReduction acc q.sender (pairSubScores q)) id (pairSubScores q)
          exact ⟨id, r2, hf2, le_trans hrec hle2⟩
      · exact Or.inr ⟨q, hq', hid, hrec⟩

/-- Members of `qualifyingPairs` have at least `MIN_RECURRING_TX_COUNT = 3`
transactions. -/
theorem qualifyingPairs_count {transactions : List RawTransaction}
    {p : PairStats} (hp : p ∈ qualifyingPairs transactions) :
    3 ≤ p.amounts.length := by
  unfold qualifyingPairs at hp
  have := List.of_mem_filter hp
  simp only [decide_eq_true_eq] at this
  exact this.1

/-- The relationship-intelligence explanation fragment is never empty. -/
theorem relIntelNote_length_pos (r : ScoreReduction) (t : ℤ) (o n : ℚ) :
    0 < (relIntelNote r t o n).length := by
  unfold relIntelNote
  simp only [String.length_append]
  have : 0 < " | Relationship Intelligence: score reduced by ".length := by decide
  omega

/-- C10 (amended): every non-cycle account with positive `suspicion_score`
that participates in a qualifying pair is mutated by the relationship
intelligence engine: its score drops by `min(score, totalReduction)`, which is
at least `min(score, 10)` (so at least 10 whenever the score is at least 10,
and to exactly 0 otherwise), the algorithm name is appended, and the
explanation grows.  The zero-reduction no-mutation branch is unreachable for
such accounts. -/
theorem relIntel_qualifying_pair_mutates (accounts : List AccountNode)
    (transactions : List RawTransaction) (cycleMembers : List String)
    (i : ℕ) (a0 : AccountNode) (h : accounts[i]? = some a0)
    (hcyc : a0.account_id ∉ cycleMembers) (hpos : 0 < a0.suspicion_score)
    (hp : ∃ p ∈ qualifyingPairs transactions,
      p.sender = a0.account_id ∨ p.receiver = a0.account_id) :
    ∃ a1, (adjustScoresUsingRelationshipIntelligence accounts transactions
        cycleMembers)[i]? = some a1 ∧
      min 10 a0.suspicion_score ≤ a0.suspicion_score - a1.suspicion_score ∧
      a1.triggered_algorithms =
        a0.triggered_algorithms ++ ["relationship_intelligence"] ∧
      a0.explanation.length < a1.explanation.length := by
  unfold adjustScoresUsingRelationshipIntelligence
  rw [List.getElem?_map, h]
  refine ⟨_, rfl, ?_⟩
  obtain ⟨p, hpmem, hpid⟩ := hp
  have hrec10 : 10 ≤ (pairSubScores p).recurring :=
    recurringScore_ge_10 (qualifyingPairs_count hpmem)
  obtain ⟨k, r, hf, hr10⟩ :=
    find?_buildReductions_recurring (qualifyingPairs transactions)
      a0.account_id ⟨p, hpmem, hpid, hrec10⟩
  have hnn := buildReductions_nonneg (qualifyingPairs transactions) (k, r)
    (List.mem_of_find?_eq_some hf)
  obtain ⟨-, hd0, hc0, hp0⟩ := hnn
  have hsum : (10 : ℤ) ≤ r.recurring + r.duration + r.consistency + r.periodicity := by
    simp only at hd0 hc0 hp0
    omega
  have ht10 : (10 : ℤ) ≤
      min MAX_TOTAL_REDUCTION (r.recurring + r.duration + r.consistency + r.periodicity) :=
    le_min (by norm_num [MAX_TOTAL_REDUCTION]) hsum
  unfold applyReductionAccount
  rw [if_neg hcyc, if_neg (not_le.mpr hpos), hf]
  dsimp only
  rw [if_neg (by omega :
    ¬ min MAX_TOTAL_REDUCTION
        (r.recurring + r.duration + r.consistency + r.periodicity) ≤ 0)]
  refine ⟨?_, rfl, ?_⟩
  · have ht : (10 : ℚ) ≤
        ((min MAX_TOTAL_REDUCTION
          (r.recurring + r.duration + r.consistency + r.periodicity) : ℤ) : ℚ) := by
      exact_mod_cast ht10
    rcases max_cases (0 : ℚ) (a0.suspicion_score -
        ((min MAX_TOTAL_REDUCTION
          (r.recurring + r.duration + r.consistency + r.periodicity) : ℤ) : ℚ)) with
      ⟨he, hle⟩ | ⟨he, hle⟩
    · simp only [he]
      exact le_trans (min_le_right _ _) (by linarith)
    · simp only [he]
      exact le_trans (min_le_left _ _) (by linarith)
  · simp only [String.length_append]
    have := relIntelNote_length_pos r
      (min MAX_TOTAL_REDUCTION (r.recurring + r.duration + r.consistency + r.periodicity))
      a0.suspicion_score
      (max 0 (a0.suspicion_score -
        ((min MAX_TOTAL_REDUCTION
          (r.recurring + r.duration + r.consistency + r.periodicity) : ℤ) : ℚ)))
    omega

-- ════════════════ Lemmas: fan-in validation engine ═══════════════════════════

/-- Positional view of the Phase 2 loop: position `i` is updated exactly when
it is the last occurrence of its account id and that id is some candidate's. -/
theorem applyFanInUpdates_cons (f : AggregationCandidate → List String)
    (cands : List AggregationCandidate) (a : AccountNode)
    (rest : List AccountNode) :
    applyFanInUpdates f cands (a :: rest) =
      (if a.account_id ∈ rest.map (·.account_id) then a
       else
         match cands.find? (fun c => c.accountId = a.account_id) with
         | some c => fanInUpdateAccount a (f c)
         | none => a) :: applyFanInUpdates f cands rest := rfl

theorem applyFanInUpdates_getElem? (f : AggregationCandidate → List String)
    (cands : List AggregationCandidate) :
    ∀ (l : List AccountNode) (i : ℕ) (a0 : AccountNode), l[i]? = some a0 →
    (applyFanInUpdates f cands l)[i]? = some (
      if a0.account_id ∈ (l.drop (i + 1)).map (·.account_id) then a0
      else
        match cands.find? (fun c => c.accountId = a0.account_id) with
        | some c => fanInUpdateAccount a0 (f c)
        | none => a0) := by
  intro l
  induction l with
  | nil => intro i a0 h; simp at h
  | cons a rest ih =>
    intro i a0 h
    cases i with
    | zero =>
      simp only [List.getElem?_cons_zero, Option.some.injEq] at h
      subst h
      rw [applyFanInUpdates_cons, List.getElem?_cons_zero]
      simp only [List.drop_succ_cons, List.drop_zero]
    | succ n =>
      simp only [List.getElem?_cons_succ] at h
      rw [applyFanInUpdates_cons, List.getElem?_cons_succ, List.drop_succ_cons]
      exact ih n a0 h

theorem fanInUpdateAccount_fields (a : AccountNode) (cs : List String) :
    (fanInUpdateAccount a cs).corroboration_checks = some cs ∧
    (fanInUpdateAccount a cs).fan_in_classification =
      some (if 0 < cs.length then "confirmed_money_laundering"
        else "aggregation_candidate") ∧
    (fanInUpdateAccount a cs).account_id = a.account_id ∧
    (fanInUpdateAccount a cs).total_transactions = a.total_transactions ∧
    (fanInUpdateAccount a cs).suspicion_score = a.suspicion_score ∧
    (fanInUpdateAccount a cs).is_suspicious = a.is_suspicious :=
  ⟨rfl, rfl, rfl, rfl, rfl, rfl⟩

theorem fanInUpdateAccount_algs_mem (a : AccountNode) (cs : List String) :
    "Two-Phase Fan-In Validation" ∈ (fanInUpdateAccount a cs).triggered_algorithms := by
  unfold fanInUpdateAccount
  dsimp only
  split
  next hmem => exact hmem
  next hmem => simp

theorem candChecks_subset (transactions : List RawTransaction) (graph : AdjList)
    (accountMap : String → Option AccountNode) (cycleNodes shellNodes fanOutNodes : List String)
    (c : AggregationCandidate) :
    ∀ x ∈ candChecks transactions graph accountMap cycleNodes shellNodes fanOutNodes c,
      x ∈ ["shell_chain_involvement", "cycle_ring_participation",
        "rapid_layered_outflow", "role_conflict"] := by
  intro x hx
  simp only [candChecks, List.mem_append] at hx
  rcases hx with ((h1 | h2) | h3) | h4
  · revert h1; split <;> intro h <;> simp_all
  · revert h2; split <;> intro h <;> simp_all
  · revert h3; split <;> intro h <;> simp_all
  · revert h4; split <;> intro h <;> simp_all

/-- C1: every account position either passes through the fan-in engine
unchanged, or comes out carrying a `corroboration_checks` list drawn from the
four fixed check names together with `fan_in_classification` equal to
`confirmed_money_laundering` exactly when that list is non-empty and to
`aggregation_candidate` exactly when it is empty. -/
theorem fanIn_classification_iff_corroboration (accounts : List AccountNode)
    (transactions : List RawTransaction) (graph : AdjList)
    (cycles shellChains : List (List String))
    (fanOutMap : List (String × List String)) (i : ℕ) (a0 : AccountNode)
    (h : accounts[i]? = some a0) :
    ∃ a1, (validateFanInTwoPhase accounts transactions graph cycles shellChains
        fanOutMap)[i]? = some a1 ∧
      (a1 = a0 ∨ ∃ l, a1.corroboration_checks = some l ∧
        (∀ x ∈ l, x ∈ ["shell_chain_involvement", "cycle_ring_participation",
          "rapid_layered_outflow", "role_conflict"]) ∧
        (a1.fan_in_classification = some "confirmed_money_laundering" ↔ l ≠ []) ∧
        (a1.fan_in_classification = some "aggregation_candidate" ↔ l = [])) := by
  unfold validateFanInTwoPhase
  refine ⟨_, applyFanInUpdates_getElem? _ _ accounts i a0 h, ?_⟩
  split
  · exact Or.inl rfl
  split
  case h_1 c heq =>
    right
    set cs := candChecks transactions graph (lookupAccount accounts)
      cycles.flatten shellChains.flatten (fanOutMap.map (·.1)) c with hcs
    obtain ⟨h1, h2, -, -, -, -⟩ := fanInUpdateAccount_fields a0 cs
    refine ⟨cs, h1, candChecks_subset _ _ _ _ _ _ c, ?_, ?_⟩
    · rw [h2]
      cases cs <;> simp
    · rw [h2]
      cases cs <;> simp
  case h_2 => exact Or.inl rfl

theorem find?_filter_ne (cid : String) (cands : List AggregationCandidate)
    (x : String) (hx : x ≠ cid) :
    (cands.filter (fun d => d.accountId ≠ cid)).find?
        (fun c => c.accountId = x) =
      cands.find? (fun c => c.accountId = x) := by
  induction cands with
  | nil => rfl
  | cons d tl ih =>
    by_cases hd : d.accountId = cid
    · rw [List.filter_cons_of_neg (by simp [hd])]
      rw [List.find?_cons_of_neg _ (by
        simp only [hd, decide_eq_true_eq]
        exact fun h => hx h.symm)]
      exact ih
    · rw [List.filter_cons_of_pos (by simp [hd])]
      by_cases hdx : d.accountId = x
      · rw [List.find?_cons_of_pos _ (by simp [hdx]),
          List.find?_cons_of_pos _ (by simp [hdx])]
      · rw [List.find?_cons_of_neg _ (by simp [hdx]),
          List.find?_cons_of_neg _ (by simp [hdx])]
        exact ih

theorem applyFanInUpdates_filter_absent
    (f : AggregationCandidate → List String)
    (cands : List AggregationCandidate) (cid : String) :
    ∀ (l : List AccountNode), (∀ a ∈ l, a.account_id ≠ cid) →
      applyFanInUpdates f cands l =
        applyFanInUpdates f (cands.filter (fun d => d.accountId ≠ cid)) l := by
  intro l
  induction l with
  | nil => intro _; rfl
  | cons a rest ih =>
    intro hl
    rw [applyFanInUpdates_cons, applyFanInUpdates_cons]
    rw [ih (fun a' ha' => hl a' (List.mem_cons_of_mem _ ha'))]
    rw [find?_filter_ne cid cands a.account_id (hl a (List.mem_cons_self _ _))]

/-- C9: a candidate whose account id is not in the account collection is
silently skipped: the engine's output is exactly the output obtained with that
candidate removed from the candidate list, so no account is mutated on its
behalf while every other candidate is processed unchanged (and the engine is a
total function, so no error is raised). -/
theorem fanIn_missing_account_skipped (accounts : List AccountNode)
    (transactions : List RawTransaction) (graph : AdjList)
    (cycles shellChains : List (List String))
    (fanOutMap : List (String × List String)) (c : AggregationCandidate)
    (_hc : c ∈ identifyAggregationCandidates transactions)
    (hmiss : c.accountId ∉ accounts.map (·.account_id)) :
    validateFanInTwoPhase accounts transactions graph cycles shellChains
        fanOutMap =
      applyFanInUpdates
        (candChecks transactions graph (lookupAccount accounts) cycles.flatten
          shellChains.flatten (fanOutMap.map (·.1)))
        ((identifyAggregationCandidates transactions).filter
          (fun d => d.accountId ≠ c.accountId))
        accounts := by
  unfold validateFanInTwoPhase
  apply applyFanInUpdates_filter_absent
  intro a ha hEq
  exact hmiss (hEq ▸ List.mem_map_of_mem (·.account_id) ha)

/-- C8: the shell-chain-involvement predicate holds iff some outgoing neighbor
of the candidate (found in the account collection) has `total_transactions` at
or below `LOW_ACTIVITY_TX_THRESHOLD = 3`, received a summed amount of at least
`totalReceived × (1 − 0.2) × 0.5 = totalReceived × 2/5`, and itself has an
outgoing neighbor other than the candidate. -/
theorem checkShellChainInvolvement_iff (candidateId : String)
    (totalReceived : ℚ) (graph : AdjList)
    (accountMap : String → Option AccountNode) :
    checkShellChainInvolvement candidateId totalReceived graph accountMap = true ↔
      ∃ outNeighbors, lookupAdj graph candidateId = some outNeighbors ∧
        ∃ p ∈ outNeighbors, ∃ neighbor, accountMap p.1 = some neighbor ∧
          neighbor.total_transactions ≤ LOW_ACTIVITY_TX_THRESHOLD ∧
          totalReceived * (2 / 5) ≤ (p.2.map (·.amount)).sum ∧
          ∃ hopNeighbors, lookupAdj graph p.1 = some hopNeighbors ∧
            ∃ q ∈ hopNeighbors, q.1 ≠ candidateId := by
  have hamt_eq : ∀ s : ℚ, (totalReceived * (1 - AMOUNT_TOLERANCE) * (1 / 2) ≤ s) ↔
      (totalReceived * (2 / 5) ≤ s) := by
    intro s
    unfold AMOUNT_TOLERANCE
    constructor <;> intro hs <;> nlinarith
  unfold checkShellChainInvolvement
  cases hadj : lookupAdj graph candidateId with
  | none =>
    simp only [Bool.false_eq_true, false_iff]
    rintro ⟨ns, hns, -⟩
    exact Option.noConfusion hns
  | some ns =>
    simp only [List.any_eq_true]
    constructor
    · rintro ⟨p, hp, hbody⟩
      refine ⟨ns, rfl, p, hp, ?_⟩
      revert hbody
      cases hacc : accountMap p.1 with
      | none => intro hbody; exact absurd hbody (by simp)
      | some neighbor =>
        intro hbody
        dsimp only at hbody
        refine ⟨neighbor, rfl, ?_⟩
        by_cases htt : LOW_ACTIVITY_TX_THRESHOLD < neighbor.total_transactions
        · rw [if_pos htt] at hbody
          exact absurd hbody (by simp)
        · rw [if_neg htt] at hbody
          refine ⟨Nat.le_of_not_lt htt, ?_⟩
          by_cases hamt : totalReceived * (1 - AMOUNT_TOLERANCE) * (1 / 2) ≤
              (List.map (·.amount) p.2).sum
          · rw [if_pos hamt] at hbody
            refine ⟨(hamt_eq _).mp hamt, ?_⟩
            revert hbody
            cases hhop : lookupAdj graph p.1 with
            | none => intro hbody; exact absurd hbody (by simp)
            | some hs =>
              intro hbody
              obtain ⟨q, hq, hq1⟩ := List.any_eq_true.mp hbody
              exact ⟨hs, rfl, q, hq, by simpa using hq1⟩
          · rw [if_neg hamt] at hbody
            exact absurd hbody (by simp)
    · rintro ⟨ns', hns', p, hp, neighbor, hacc, htt, hamt, hs, hhop, q, hq, hqne⟩
      obtain rfl : ns' = ns := by
        injection hns' with h1
        exact h1.symm
      refine ⟨p, hp, ?_⟩
      show (match accountMap p.1 with
        | none => false
        | some neighbor =>
          if LOW_ACTIVITY_TX_THRESHOLD < neighbor.total_transactions then false
          else
            if totalReceived * (1 - AMOUNT_TOLERANCE) * (1 / 2) ≤
                (p.2.map (·.amount)).sum then
              match lookupAdj graph p.1 with
              | none => false
              | some hopNeighbors => hopNeighbors.any fun q => q.1 ≠ candidateId
            else false) = true
      rw [hacc]
      dsimp only
      rw [if_neg (Nat.not_lt.mpr htt)]
      rw [if_pos ((hamt_eq _).mpr hamt)]
      rw [hhop]
      dsimp only
      exact List.any_eq_true.mpr ⟨q, hq, by simpa using hqne⟩

-- ─── Second-run behaviour of the fan-in engine ───────────────────────────────

theorem applyFanInUpdates_cons_step (f : AggregationCandidate → List String)
    (cands : List AggregationCandidate) (a : AccountNode)
    (rest : List AccountNode) :
    applyFanInUpdates f cands (a :: rest) =
      fanInStep f cands (rest.map (·.account_id)) a ::
        applyFanInUpdates f cands rest := rfl

theorem fanInStep_account_id (f : AggregationCandidate → List String)
    (cands : List AggregationCandidate) (ids : List String) (a : AccountNode) :
    (fanInStep f cands ids a).account_id = a.account_id := by
  unfold fanInStep
  split
  · rfl
  split <;> rfl

theorem fanInStep_total_transactions (f : AggregationCandidate → List String)
    (cands : List AggregationCandidate) (ids : List String) (a : AccountNode) :
    (fanInStep f cands ids a).total_transactions = a.total_transactions := by
  unfold fanInStep
  split
  · rfl
  split <;> rfl

theorem applyFanInUpdates_map_id (f : AggregationCandidate → List String)
    (cands : List AggregationCandidate) :
    ∀ l : List AccountNode,
      (applyFanInUpdates f cands l).map (·.account_id) =
        l.map (·.account_id) := by
  intro l
  induction l with
  | nil => rfl
  | cons a rest ih =>
    rw [applyFanInUpdates_cons_step, List.map_cons, List.map_cons,
      fanInStep_account_id, ih]

theorem lookupAccount_cons (a : AccountNode) (rest : List AccountNode)
    (id : String) :
    lookupAccount (a :: rest) id =
      match lookupAccount rest id with
      | some b => some b
      | none => if a.account_id = id then some a else none := rfl

/-- A fan-in run never changes what `accountMap.get` reports for
`total_transactions`, the only account field the corroboration checks read. -/
theorem lookupAccount_applyFanInUpdates_tt
    (f : AggregationCandidate → List String)
    (cands : List AggregationCandidate) :
    ∀ (l : List AccountNode) (id : String),
      (lookupAccount (applyFanInUpdates f cands l) id).map
          (fun a => a.total_transactions) =
        (lookupAccount l id).map (fun a => a.total_transactions) := by
  intro l
  induction l with
  | nil => intro id; rfl
  | cons a rest ih =>
    intro id
    rw [applyFanInUpdates_cons_step, lookupAccount_cons, lookupAccount_cons]
    have hih := ih id
    cases hr' : lookupAccount (applyFanInUpdates f cands rest) id with
    | some b' =>
      rw [hr'] at hih
      cases hr : lookupAccount rest id with
      | some b =>
        rw [hr] at hih
        exact hih
      | none => rw [hr] at hih; simp at hih
    | none =>
      rw [hr'] at hih
      cases hr : lookupAccount rest id with
      | some b => rw [hr] at hih; simp at hih
      | none =>
        dsimp only
        rw [fanInStep_account_id]
        by_cases hid : a.account_id = id
        · rw [if_pos hid, if_pos hid]
          simp [fanInStep_total_transactions]
        · rw [if_neg hid, if_neg hid]

theorem list_any_congr {α : Type} {p q : α → Bool} (l : List α)
    (h : ∀ x ∈ l, p x = q x) : l.any p = l.any q := by
  induction l with
  | nil => rfl
  | cons x xs ih =>
    simp only [List.any_cons]
    rw [h x (List.mem_cons_self _ _),
      ih fun y hy => h y (List.mem_cons_of_mem _ hy)]

/-- The shell-chain check reads accounts only through
`total_transactions`-preserving lookups. -/
theorem checkShellChainInvolvement_congr (candidateId : String)
    (totalReceived : ℚ) (graph : AdjList)
    {m1 m2 : String → Option AccountNode}
    (hm : ∀ id, (m1 id).map (fun a => a.total_transactions) =
      (m2 id).map (fun a => a.total_transactions)) :
    checkShellChainInvolvement candidateId totalReceived graph m1 =
      checkShellChainInvolvement candidateId totalReceived graph m2 := by
  unfold checkShellChainInvolvement
  cases lookupAdj graph candidateId with
  | none => rfl
  | some ns =>
    dsimp only
    apply list_any_congr
    intro p _
    have hmp := hm p.1
    cases h1 : m1 p.1 with
    | none =>
      rw [h1] at hmp
      cases h2 : m2 p.1 with
      | none => rfl
      | some a2 => rw [h2] at hmp; simp at hmp
    | some a1 =>
      rw [h1] at hmp
      cases h2 : m2 p.1 with
      | none => rw [h2] at hmp; simp at hmp
      | some a2 =>
        rw [h2] at hmp
        have htt : a1.total_transactions = a2.total_transactions := by
          simpa using hmp
        dsimp only
        rw [htt]

theorem candChecks_congr (transactions : List RawTransaction) (graph : AdjList)
    {m1 m2 : String → Option AccountNode}
    (cycleNodes shellNodes fanOutNodes : List String)
    (c : AggregationCandidate)
    (hm : ∀ id, (m1 id).map (fun a => a.total_transactions) =
      (m2 id).map (fun a => a.total_transactions)) :
    candChecks transactions graph m1 cycleNodes shellNodes fanOutNodes c =
      candChecks transactions graph m2 cycleNodes shellNodes fanOutNodes c := by
  unfold candChecks
  rw [checkShellChainInvolvement_congr c.accountId c.totalReceived graph hm]

theorem fanInUpdateAccount_algs_of_mem (a : AccountNode) (cs : List String)
    (h : "Two-Phase Fan-In Validation" ∈ a.triggered_algorithms) :
    (fanInUpdateAccount a cs).triggered_algorithms = a.triggered_algorithms := by
  unfold fanInUpdateAccount
  dsimp only
  rw [if_pos h]

/-- Re-classifying an already classified account changes nothing but the
explanation: the classification fields are overwritten with the same values
and the algorithm name is not pushed twice. -/
theorem fanInUpdateAccount_core_idem (a : AccountNode) (cs : List String) :
    fanInCore (fanInUpdateAccount (fanInUpdateAccount a cs) cs) =
      fanInCore (fanInUpdateAccount a cs) := by
  simp only [fanInCore, Prod.mk.injEq]
  exact ⟨rfl, rfl, rfl,
    fanInUpdateAccount_algs_of_mem _ _ (fanInUpdateAccount_algs_mem a cs),
    rfl, rfl, rfl⟩

theorem fanInStep_core_idem (f f' : AggregationCandidate → List String)
    (cands : List AggregationCandidate) (ids : List String) (a : AccountNode)
    (hff : ∀ c, f' c = f c) :
    fanInCore (fanInStep f' cands ids (fanInStep f cands ids a)) =
      fanInCore (fanInStep f cands ids a) := by
  by_cases hmem : a.account_id ∈ ids
  · rw [show fanInStep f cands ids a = a from by unfold fanInStep; rw [if_pos hmem]]
    rw [show fanInStep f' cands ids a = a from by unfold fanInStep; rw [if_pos hmem]]
  · cases hfind : cands.find? (fun c => c.accountId = a.account_id) with
    | none =>
      rw [show fanInStep f cands ids a = a from by
        unfold fanInStep; rw [if_neg hmem, hfind]]
      rw [show fanInStep f' cands ids a = a from by
        unfold fanInStep; rw [if_neg hmem, hfind]]
    | some c =>
      rw [show fanInStep f cands ids a = fanInUpdateAccount a (f c) from by
        unfold fanInStep; rw [if_neg hmem, hfind]]
      have hid : (fanInUpdateAccount a (f c)).account_id = a.account_id := rfl
      rw [show fanInStep f' cands ids (fanInUpdateAccount a (f c)) =
          fanInUpdateAccount (fanInUpdateAccount a (f c)) (f' c) from by
        unfold fanInStep; rw [hid, if_neg hmem, hfind]]
      rw [hff c]
      exact fanInUpdateAccount_core_idem a (f c)

theorem applyFanInUpdates_core_idem (f f' : AggregationCandidate → List String)
    (cands : List AggregationCandidate) (hff : ∀ c, f' c = f c) :
    ∀ l : List AccountNode,
      (applyFanInUpdates f' cands (applyFanInUpdates f cands l)).map fanInCore =
        (applyFanInUpdates f cands l).map fanInCore := by
  intro l
  induction l with
  | nil => rfl
  | cons a rest ih =>
    rw [applyFanInUpdates_cons_step, applyFanInUpdates_cons_step,
      applyFanInUpdates_map_id, List.map_cons, List.map_cons,
      fanInStep_core_idem f f' cands _ a hff, ih]

/-- C3 (amended): `validateFanInTwoPhase` is idempotent on every account field
except `explanation` — a second run assigns the same classification and
corroboration checks, leaves scores and `triggered_algorithms` unchanged, and
only re-appends its explanation fragment.  (Neither entry point is idempotent
on the full account state; see the counterexample.) -/
theorem fanIn_idempotent_except_explanation (accounts : List AccountNode)
    (transactions : List RawTransaction) (graph : AdjList)
    (cycles shellChains : List (List String))
    (fanOutMap : List (String × List String)) :
    (validateFanInTwoPhase
        (validateFanInTwoPhase accounts transactions graph cycles shellChains
          fanOutMap)
        transactions graph cycles shellChains fanOutMap).map fanInCore =
      (validateFanInTwoPhase accounts transactions graph cycles shellChains
        fanOutMap).map fanInCore := by
  unfold validateFanInTwoPhase
  apply applyFanInUpdates_core_idem
  intro c
  exact candChecks_congr transactions graph cycles.flatten shellChains.flatten
    (fanOutMap.map (·.1)) c
    (lookupAccount_applyFanInUpdates_tt _ _ accounts)

-- ════════════════ Lemmas: Phase 1 sliding window (C2) ════════════════════════

theorem sortByTimestamp_perm (txs : List RawTransaction) :
    (sortByTimestamp txs).Perm txs :=
  List.perm_insertionSort _ txs

theorem sortByTimestamp_sorted (txs : List RawTransaction) :
    (sortByTimestamp txs).Pairwise (fun a b => a.timestamp ≤ b.timestamp) :=
  List.sorted_insertionSort _ txs

theorem tsAt_eq (sorted : List RawTransaction) (i : ℕ)
    (h : i < sorted.length) : tsAt sorted i = sorted[i].timestamp := by
  unfold tsAt
  rw [List.getElem?_eq_getElem h]
  rfl

theorem tsAt_mono (sorted : List RawTransaction)
    (hsort : sorted.Pairwise (fun a b => a.timestamp ≤ b.timestamp))
    {i j : ℕ} (hij : i ≤ j) (hj : j < sorted.length) :
    tsAt sorted i ≤ tsAt sorted j := by
  rcases eq_or_lt_of_le hij with rfl | hlt
  · exact le_rfl
  · rw [tsAt_eq sorted i (lt_trans hlt hj), tsAt_eq sorted j hj]
    exact List.pairwise_iff_getElem.mp hsort i j (lt_trans hlt hj) hj hlt

theorem mem_windowSlice {sorted : List RawTransaction} {l r : ℕ}
    {tx : RawTransaction} (h : tx ∈ windowSlice sorted l r) :
    ∃ i, l ≤ i ∧ i ≤ r ∧ ∃ hi : i < sorted.length, sorted[i] = tx := by
  unfold windowSlice at h
  obtain ⟨j, hj, hget⟩ := List.getElem_of_mem h
  rw [List.length_take, List.length_drop] at hj
  have hj1 : j < r + 1 - l := lt_of_lt_of_le hj (min_le_left _ _)
  have hj2 : j < sorted.length - l := lt_of_lt_of_le hj (min_le_right _ _)
  refine ⟨l + j, Nat.le_add_right _ _, by omega, by omega, ?_⟩
  rw [List.getElem_take, List.getElem_drop] at hget
  exact hget

theorem mem_of_mem_windowSlice {sorted : List RawTransaction} {l r : ℕ}
    {tx : RawTransaction} (h : tx ∈ windowSlice sorted l r) : tx ∈ sorted :=
  List.mem_of_mem_drop (List.mem_of_mem_take h)

theorem slideLeft_le (sorted : List RawTransaction) (rt : ℤ) :
    ∀ (fuel left : ℕ), left ≤ slideLeft sorted rt fuel left ∧
      slideLeft sorted rt fuel left ≤ left + fuel := by
  intro fuel
  induction fuel with
  | zero => intro left; exact ⟨le_rfl, Nat.le_add_right _ _⟩
  | succ fuel ih =>
    intro left
    by_cases hc : FAN_IN_WINDOW_MS < rt - tsAt sorted left
    · simp only [slideLeft, if_pos hc]
      obtain ⟨h1, h2⟩ := ih (left + 1)
      exact ⟨by omega, by omega⟩
    · simp only [slideLeft, if_neg hc]
      exact ⟨le_rfl, by omega⟩

theorem slideLeft_exit (sorted : List RawTransaction) (rt : ℤ) :
    ∀ (fuel left : ℕ), slideLeft sorted rt fuel left = left + fuel ∨
      ¬(FAN_IN_WINDOW_MS < rt - tsAt sorted (slideLeft sorted rt fuel left)) := by
  intro fuel
  induction fuel with
  | zero => intro left; left; simp [slideLeft]
  | succ fuel ih =>
    intro left
    by_cases hc : FAN_IN_WINDOW_MS < rt - tsAt sorted left
    · simp only [slideLeft, if_pos hc]
      rcases ih (left + 1) with h | h
      · left; omega
      · right; exact h
    · simp only [slideLeft, if_neg hc]
      right; exact hc

theorem phase1Step_fst (sorted : List RawTransaction) (right left : ℕ)
    (best : Option (Finset String × ℕ × ℕ)) (hlr : left ≤ right) :
    (phase1Step sorted right left best).1 ≤ right := by
  unfold phase1Step
  dsimp only
  have := slideLeft_le sorted (tsAt sorted right) (right - left) left
  omega

theorem phase1Step_snd_good (sorted : List RawTransaction) (right left : ℕ)
    (best : Option (Finset String × ℕ × ℕ)) (hlr : left ≤ right)
    (hrl : right < sorted.length)
    (hbest : ∀ s l r, best = some (s, l, r) → GoodWindow sorted s l r) :
    ∀ s l r, (phase1Step sorted right left best).2 = some (s, l, r) →
      GoodWindow sorted s l r := by
  intro s l r h
  unfold phase1Step at h
  dsimp only at h
  split at h
  case isTrue hcond =>
    injection h with h1
    injection h1 with ha hb
    injection hb with hb1 hb2
    subst ha
    subst hb1
    subst hb2
    have hbounds := slideLeft_le sorted (tsAt sorted right) (right - left) left
    refine ⟨?_, rfl, by omega, hrl, ?_⟩
    · simp only [Bool.and_eq_true, decide_eq_true_eq] at hcond
      exact hcond.1
    · rcases slideLeft_exit sorted (tsAt sorted right) (right - left) left with
        he | he
      · have he' : slideLeft sorted (tsAt sorted right) (right - left) left =
          right := by omega
        rw [he']
        norm_num [FAN_IN_WINDOW_MS]
      · exact not_lt.mp he
  case isFalse => exact hbest s l r h

theorem phase1Go_good (sorted : List RawTransaction) :
    ∀ (fuel right left : ℕ) (best : Option (Finset String × ℕ × ℕ)),
      left ≤ right →
      (∀ s l r, best = some (s, l, r) → GoodWindow sorted s l r) →
      ∀ s l r, phase1Go sorted fuel right left best = some (s, l, r) →
        GoodWindow sorted s l r := by
  intro fuel
  induction fuel with
  | zero => intro right left best hlr hbest s l r h; exact hbest s l r h
  | succ fuel ih =>
    intro right left best hlr hbest s l r h
    simp only [phase1Go] at h
    by_cases hrl : right < sorted.length
    · rw [if_pos hrl] at h
      exact ih (right + 1) (phase1Step sorted right left best).1 _
        (le_trans (phase1Step_fst sorted right left best hlr)
          (Nat.le_succ right))
        (phase1Step_snd_good sorted right left best hlr hrl hbest) s l r h
    · rw [if_neg hrl] at h
      exact hbest s l r h

theorem bestWindow_good (sorted : List RawTransaction) (s : Finset String)
    (l r : ℕ) (h : bestWindow sorted = some (s, l, r)) :
    GoodWindow sorted s l r :=
  phase1Go_good sorted sorted.length 0 0 none (le_refl 0)
    (fun _ _ _ h' => Option.noConfusion h') s l r h

/-- Soundness of the sliding window: any window `phase1Go` reports gives a
concrete 72-hour window of the unsorted incoming transactions holding at
least as many unique senders. -/
theorem goodWindow_hasFanInWindow (incoming : List RawTransaction)
    {s : Finset String} {l r : ℕ}
    (hgood : GoodWindow (sortByTimestamp incoming) s l r) :
    hasFanInWindow incoming := by
  obtain ⟨hcard, hs, hlr, hrlen, hwin⟩ := hgood
  set sorted := sortByTimestamp incoming with hsorted
  refine ⟨tsAt sorted l, le_trans hcard (Finset.card_le_card ?_)⟩
  rw [hs]
  intro x hx
  unfold sendersInWindow at hx
  rw [List.mem_toFinset] at hx
  obtain ⟨tx, htx, rfl⟩ := List.mem_map.mp hx
  obtain ⟨i, hli, hir, hilen, hitx⟩ := mem_windowSlice htx
  have hsortp : sorted.Pairwise (fun a b => a.timestamp ≤ b.timestamp) :=
    sortByTimestamp_sorted incoming
  have h1 : tsAt sorted l ≤ tx.timestamp := by
    have hmono := tsAt_mono sorted hsortp hli hilen
    rw [tsAt_eq sorted i hilen] at hmono
    rw [← hitx]
    exact hmono
  have h2 : tx.timestamp ≤ tsAt sorted l + FAN_IN_WINDOW_MS := by
    have hmono := tsAt_mono sorted hsortp hir hrlen
    rw [tsAt_eq sorted i hilen] at hmono
    rw [← hitx]
    omega
  unfold windowSenders
  rw [List.mem_toFinset]
  refine List.mem_map.mpr ⟨tx, ?_, rfl⟩
  rw [List.mem_filter]
  refine ⟨?_, ?_⟩
  · exact (sortByTimestamp_perm incoming).mem_iff.mp
      (mem_of_mem_windowSlice htx)
  · simp only [decide_eq_true_eq]
    exact ⟨h1, h2⟩

theorem candidateFor_accountId {transactions : List RawTransaction}
    {receiver : String} {c : AggregationCandidate}
    (h : candidateFor transactions receiver = some c) :
    c.accountId = receiver := by
  unfold candidateFor at h
  dsimp only at h
  split at h
  · exact Option.noConfusion h
  · injection h with h1
    rw [← h1]

theorem candidateFor_eq_none {transactions : List RawTransaction}
    {receiver : String}
    (h : ¬ hasFanInWindow (incomingTxs transactions receiver)) :
    candidateFor transactions receiver = none := by
  unfold candidateFor
  dsimp only
  cases hbw : bestWindow (sortByTimestamp (incomingTxs transactions receiver)) with
  | none => rfl
  | some t =>
    obtain ⟨s, l, r⟩ := t
    exact absurd (goodWindow_hasFanInWindow _ (bestWindow_good _ s l r hbw)) h

theorem notMem_candidates {transactions : List RawTransaction} {id : String}
    (h : ¬ hasFanInWindow (incomingTxs transactions id)) :
    ∀ c ∈ identifyAggregationCandidates transactions, c.accountId ≠ id := by
  intro c hc hEq
  unfold identifyAggregationCandidates at hc
  obtain ⟨rcv, hrcv, hcf⟩ := List.mem_filterMap.mp hc
  have hacc : c.accountId = rcv := candidateFor_accountId hcf
  rw [hacc] at hEq
  subst hEq
  rw [candidateFor_eq_none h] at hcf
  exact Option.noConfusion hcf

/-- C2: an account none of whose 72-hour incoming windows reaches
`MIN_UNIQUE_SENDERS` unique senders is returned by the fan-in engine exactly
as it came in — no `fan_in_classification`, no `corroboration_checks`, no
field of any kind is assigned. -/
theorem fanIn_no_window_unchanged (accounts : List AccountNode)
    (transactions : List RawTransaction) (graph : AdjList)
    (cycles shellChains : List (List String))
    (fanOutMap : List (String × List String)) (i : ℕ) (a0 : AccountNode)
    (h : accounts[i]? = some a0)
    (hw : ¬ hasFanInWindow (incomingTxs transactions a0.account_id)) :
    (validateFanInTwoPhase accounts transactions graph cycles shellChains
      fanOutMap)[i]? = some a0 := by
  unfold validateFanInTwoPhase
  rw [applyFanInUpdates_getElem? _ _ accounts i a0 h]
  have hfind : (identifyAggregationCandidates transactions).find?
      (fun c => c.accountId = a0.account_id) = none :=
    List.find?_eq_none.mpr fun c hc => by
      simpa using notMem_candidates hw c hc
  rw [hfind]
  split <;> rfl

-- ════════════════ Concrete instances ═════════════════════════════════════════

unseal Rat.add Rat.mul Rat.sub Rat.inv in
set_option maxRecDepth 16000 in
/-- C3 (counterexample): neither entry point is idempotent on the full account
state.  A second fan-in run re-appends the explanation fragment of `R`, and a
second relationship-intelligence run reduces `X`'s still-positive score again
(100 → 50 → 0). -/
theorem engines_not_idempotent :
    validateFanInTwoPhase
        (validateFanInTwoPhase [exAccount "R" 0] fanInTxsR [] [] [] [])
        fanInTxsR [] [] [] [] ≠
      validateFanInTwoPhase [exAccount "R" 0] fanInTxsR [] [] [] [] ∧
    adjustScoresUsingRelationshipIntelligence
        (adjustScoresUsingRelationshipIntelligence [exAccount "X" 100]
          relTxsXY [])
        relTxsXY [] ≠
      adjustScoresUsingRelationshipIntelligence [exAccount "X" 100]
        relTxsXY [] := by
  constructor
  · decide
  · decide

unseal Rat.add Rat.mul Rat.sub Rat.inv in
set_option maxRecDepth 16000 in
/-- C10 (counterexample): with input score 5, a non-cycle account in a
qualifying pair is reduced only to 0 — a reduction of 5, not of at least
10 — so the claim's "score reduced by at least 10" fails for scores
below 10. -/
theorem relIntel_small_score_not_reduced_by_10 :
    (exAccount "X" 5).suspicion_score = 5 ∧
    (exAccount "X" 5).account_id ∉ ([] : List String) ∧
    (∃ p ∈ qualifyingPairs relTxsXY,
      p.sender = (exAccount "X" 5).account_id ∨
        p.receiver = (exAccount "X" 5).account_id) ∧
    ((adjustScoresUsingRelationshipIntelligence [exAccount "X" 5] relTxsXY
        [])[0]?).map (fun a => a.suspicion_score) = some 0 ∧
    ¬(10 ≤ (5 : ℚ) - (0 : ℚ)) := by
  refine ⟨rfl, by simp, by decide, by decide, by norm_num⟩

-- ════════════════ Witnesses ══════════════════════════════════════════════════

/-- Witness for `fanIn_classification_iff_corroboration`: receiver `R` of
three-sender fan-in. -/
theorem fanIn_classification_iff_corroboration_witness :
    ([exAccount "R" 0] : List AccountNode)[0]? = some (exAccount "R" 0) ∧
    ∃ a1, (validateFanInTwoPhase [exAccount "R" 0] fanInTxsR [] [] [] [])[0]? =
        some a1 ∧
      (a1 = exAccount "R" 0 ∨ ∃ l, a1.corroboration_checks = some l ∧
        (∀ x ∈ l, x ∈ ["shell_chain_involvement", "cycle_ring_participation",
          "rapid_layered_outflow", "role_conflict"]) ∧
        (a1.fan_in_classification = some "confirmed_money_laundering" ↔
          l ≠ []) ∧
        (a1.fan_in_classification = some "aggregation_candidate" ↔ l = [])) :=
  ⟨rfl, fanIn_classification_iff_corroboration [exAccount "R" 0] fanInTxsR
    [] [] [] [] 0 (exAccount "R" 0) rfl⟩

/-- Witness for `fanIn_no_window_unchanged`: an account with no incoming
transactions at all. -/
theorem fanIn_no_window_unchanged_witness :
    ([exAccount "A" 0] : List AccountNode)[0]? = some (exAccount "A" 0) ∧
    ¬ hasFanInWindow (incomingTxs [] (exAccount "A" 0).account_id) ∧
    (validateFanInTwoPhase [exAccount "A" 0] [] [] [] [] [])[0]? =
      some (exAccount "A" 0) := by
  have hw : ¬ hasFanInWindow (incomingTxs [] (exAccount "A" 0).account_id) := by
    rintro ⟨t0, hcard⟩
    simp [windowSenders, incomingTxs, MIN_UNIQUE_SENDERS] at hcard
  exact ⟨rfl, hw,
    fanIn_no_window_unchanged [exAccount "A" 0] [] [] [] [] [] 0
      (exAccount "A" 0) rfl hw⟩

/-- Witness for `relIntel_score_monotone_nonneg` at account `X`, score 100. -/
theorem relIntel_score_monotone_nonneg_witness :
    ([exAccount "X" 100] : List AccountNode)[0]? = some (exAccount "X" 100) ∧
    0 ≤ (exAccount "X" 100).suspicion_score ∧
    ∃ a1, (adjustScoresUsingRelationshipIntelligence [exAccount "X" 100]
        relTxsXY [])[0]? = some a1 ∧
      a1.suspicion_score ≤ (exAccount "X" 100).suspicion_score ∧
      0 ≤ a1.suspicion_score :=
  ⟨rfl, by decide,
    relIntel_score_monotone_nonneg [exAccount "X" 100] relTxsXY [] 0
      (exAccount "X" 100) rfl (by decide)⟩

/-- Witness for `relIntel_total_reduction_le_50` at account `X`, score 100. -/
theorem relIntel_total_reduction_le_50_witness :
    ([exAccount "X" 100] : List AccountNode)[0]? = some (exAccount "X" 100) ∧
    ∃ a1, (adjustScoresUsingRelationshipIntelligence [exAccount "X" 100]
        relTxsXY [])[0]? = some a1 ∧
      (exAccount "X" 100).suspicion_score - a1.suspicion_score ≤ 50 :=
  ⟨rfl, relIntel_total_reduction_le_50 [exAccount "X" 100] relTxsXY [] 0
    (exAccount "X" 100) rfl⟩

/-- Witness for `relIntel_cycle_member_unchanged`: `X` is a cycle member. -/
theorem relIntel_cycle_member_unchanged_witness :
    ([exAccount "X" 40] : List AccountNode)[0]? = some (exAccount "X" 40) ∧
    (exAccount "X" 40).account_id ∈ ["X"] ∧
    (adjustScoresUsingRelationshipIntelligence [exAccount "X" 40] relTxsXY
      ["X"])[0]? = some (exAccount "X" 40) :=
  ⟨rfl, by decide,
    relIntel_cycle_member_unchanged [exAccount "X" 40] relTxsXY ["X"] 0
      (exAccount "X" 40) rfl (by decide)⟩

unseal Rat.add Rat.mul Rat.sub Rat.inv in
set_option maxRecDepth 16000 in
/-- Witness for `fanIn_missing_account_skipped`: the candidate `R` exists but
only account `Z` is in the collection. -/
theorem fanIn_missing_account_skipped_witness :
    fanInCandR ∈ identifyAggregationCandidates fanInTxsR ∧
    fanInCandR.accountId ∉
      ([exAccount "Z" 0] : List AccountNode).map (·.account_id) ∧
    validateFanInTwoPhase [exAccount "Z" 0] fanInTxsR [] [] [] [] =
      applyFanInUpdates
        (candChecks fanInTxsR [] (lookupAccount [exAccount "Z" 0])
          ([] : List (List String)).flatten ([] : List (List String)).flatten
          (([] : List (String × List String)).map (·.1)))
        ((identifyAggregationCandidates fanInTxsR).filter
          (fun d => d.accountId ≠ fanInCandR.accountId))
        [exAccount "Z" 0] := by
  have hc : fanInCandR ∈ identifyAggregationCandidates fanInTxsR := by decide
  have hm : fanInCandR.accountId ∉
      ([exAccount "Z" 0] : List AccountNode).map (·.account_id) := by decide
  exact ⟨hc, hm,
    fanIn_missing_account_skipped [exAccount "Z" 0] fanInTxsR [] [] [] []
      fanInCandR hc hm⟩

/-- Witness for `relIntel_qualifying_pair_mutates` at account `X`, score
100. -/
theorem relIntel_qualifying_pair_mutates_witness :
    ([exAccount "X" 100] : List AccountNode)[0]? = some (exAccount "X" 100) ∧
    (exAccount "X" 100).account_id ∉ ([] : List String) ∧
    0 < (exAccount "X" 100).suspicion_score ∧
    (∃ p ∈ qualifyingPairs relTxsXY,
      p.sender = (exAccount "X" 100).account_id ∨
        p.receiver = (exAccount "X" 100).account_id) ∧
    ∃ a1, (adjustScoresUsingRelationshipIntelligence [exAccount "X" 100]
        relTxsXY [])[0]? = some a1 ∧
      min 10 (exAccount "X" 100).suspicion_score ≤
        (exAccount "X" 100).suspicion_score - a1.suspicion_score ∧
      a1.triggered_algorithms =
        (exAccount "X" 100).triggered_algorithms ++
          ["relationship_intelligence"] ∧
      (exAccount "X" 100).explanation.length < a1.explanation.length := by
  have h2 : (exAccount "X" 100).account_id ∉ ([] : List String) := by simp
  have h3 : 0 < (exAccount "X" 100).suspicion_score := by decide
  have h4 : ∃ p ∈ qualifyingPairs relTxsXY,
      p.sender = (exAccount "X" 100).account_id ∨
        p.receiver = (exAccount "X" 100).account_id := by decide
  exact ⟨rfl, h2, h3, h4,
    relIntel_qualifying_pair_mutates [exAccount "X" 100] relTxsXY [] 0
      (exAccount "X" 100) rfl h2 h3 h4⟩
